import Mathlib

/-!
Verification development for the yubihsm.rs sources: the USB device
enumeration/open logic (`src/connector/usb/device.rs` and
`src/adapters/usb/devices.rs`), the minimalist HTTP response reader
(`src/adapters/http/mod.rs`), and the SCP03 secure-channel core
(`src/securechannel/`, whose submodule bodies are absent from the
excerpted sources and are therefore modelled from the specification).
-/

set_option maxRecDepth 65536

namespace Yubihsm

/-! ## USB device model

Shallow embedding of `src/adapters/usb/devices.rs` and
`src/connector/usb/device.rs`.  A `RawDevice` stands for one
`libusb::Device` as seen during enumeration: its descriptor data plus the
outcomes of the fallible probing steps the Rust code performs on it
(`device_descriptor()`, `open()`, `reset()`, `read_languages`, the string
reads, `SerialNumber::from_str`).  `UsbConnection::create` /
`UsbAdapter::new` (connection establishment on the selected device) are
not part of the excerpted sources; opening is modelled as returning the
selected device. -/

/-- Decidable equality of `Except` results, for evaluating the embedded
operations on concrete inputs. -/
instance {ε α : Type} [DecidableEq ε] [DecidableEq α] : DecidableEq (Except ε α) := fun a b =>
  match a, b with
  | .error e, .error e' =>
    if h : e = e' then .isTrue (by rw [h]) else .isFalse (fun hc => h (Except.error.inj hc))
  | .ok x, .ok y =>
    if h : x = y then .isTrue (by rw [h]) else .isFalse (fun hc => h (Except.ok.inj hc))
  | .error _, .ok _ => .isFalse (fun hc => Except.noConfusion hc)
  | .ok _, .error _ => .isFalse (fun hc => Except.noConfusion hc)

/-- `SerialNumber` from `src/serial_number.rs` (construction/validation is
external to the excerpted sources); only equality is used by the
enumeration and open logic. -/
structure SerialNumber where
  value : String
deriving DecidableEq, Repr

/-- USB vendor ID for Yubico (`YUBICO_VENDOR_ID` in
`src/adapters/usb/devices.rs`). -/
def YUBICO_VENDOR_ID : Nat := 0x1050

/-- USB product ID for the YubiHSM2 (`YUBIHSM2_PRODUCT_ID` in
`src/adapters/usb/devices.rs`). -/
def YUBIHSM2_PRODUCT_ID : Nat := 0x0030

/-- Outcome of `handle.reset()` as distinguished by both enumeration
routines: success, `libusb::Error::NoDevice` (mapped to
`DeviceBusyError`), or any other libusb error (mapped to `UsbError`). -/
inductive ResetOutcome where
  | ok
  | noDevice
  | otherError
deriving DecidableEq, Repr

/-- One enumerated `libusb::Device` together with the outcomes of the
fallible operations the detection loops perform on it. -/
structure RawDevice where
  /-- `desc.vendor_id()`; `device_descriptor()` failure is `descOk`. -/
  vendorId : Nat
  /-- `desc.product_id()`. -/
  productId : Nat
  /-- whether `device.device_descriptor()` succeeds. -/
  descOk : Bool
  /-- whether `device.open()` succeeds. -/
  openOk : Bool
  /-- outcome of `handle.reset()`. -/
  reset : ResetOutcome
  /-- whether `handle.read_languages(..)` itself succeeds. -/
  langReadOk : Bool
  /-- the language list returned by `read_languages` (`.first()` fails on `[]`). -/
  languages : List Nat
  /-- whether `read_manufacturer_string` succeeds (connector generation only). -/
  mfrReadOk : Bool
  /-- whether `read_product_string` succeeds (connector generation only). -/
  prodReadOk : Bool
  /-- whether `read_serial_number_string` succeeds. -/
  serialReadOk : Bool
  /-- whether `SerialNumber::from_str` accepts the serial string. -/
  serialParseOk : Bool
  /-- the parsed serial number (meaningful when `serialParseOk`). -/
  serialNumber : SerialNumber
  /-- `manufacturer ++ " " ++ product` (connector generation only). -/
  productName : String
deriving DecidableEq, Repr

/-- Error kinds of `ConnectionErrorKind` / the adapter error kinds used by
the USB code paths (`UsbError`, `DeviceBusyError`). -/
inductive UsbErrKind where
  | usbError
  | deviceBusyError
deriving DecidableEq, Repr

/-- `Device` from `src/connector/usb/device.rs`: the underlying libusb
device, the product vendor/name string, and the serial number. -/
structure Device where
  raw : RawDevice
  productName : String
  serialNumber : SerialNumber
deriving DecidableEq, Repr

/-- `HsmDevice` from `src/adapters/usb/devices.rs`: serial number plus the
underlying libusb device. -/
structure HsmDevice where
  serialNumber : SerialNumber
  raw : RawDevice
deriving DecidableEq, Repr

/-- The probing steps shared by both detection loops once a device passed
the vendor/product filter: `open()`, `reset()`, `read_languages)` plus
`.first()`; returns the chosen language or the error both generations
raise.  (Factored out because the two Rust functions perform these steps
with identical control flow.) -/
def probeDevice (r : RawDevice) : Except UsbErrKind Nat :=
  if !r.openOk then .error .usbError
  else match r.reset with
    | .noDevice => .error .deviceBusyError
    | .otherError => .error .usbError
    | .ok =>
      if !r.langReadOk then .error .usbError
      else match r.languages with
        | [] => .error .usbError
        | l :: _ => .ok l

/-- `Devices::detect` from `src/connector/usb/device.rs`, as a function of
the enumerated device list: skip devices whose vendor/product ids differ
from the Yubico/YubiHSM2 ids; on each matching device perform the probing
steps (any failure aborts the whole detection), read manufacturer, product
and serial strings, parse the serial number, and collect the device. -/
def Devices.detect : List RawDevice → Except UsbErrKind (List Device)
  | [] => .ok []
  | r :: rest =>
    if !r.descOk then .error .usbError
    else if r.vendorId != YUBICO_VENDOR_ID || r.productId != YUBIHSM2_PRODUCT_ID then
      Devices.detect rest
    else
      match probeDevice r with
      | .error e => .error e
      | .ok _ =>
        if !(r.mfrReadOk && r.prodReadOk && r.serialReadOk) then .error .usbError
        else if !r.serialParseOk then .error .usbError
        else
          match Devices.detect rest with
          | .error e => .error e
          | .ok devs =>
            .ok (⟨r, r.productName, r.serialNumber⟩ :: devs)

/-- `UsbDevices::new` from `src/adapters/usb/devices.rs`: the same
enumeration loop as `Devices.detect`, except that it does not read the
manufacturer/product strings and stores only the serial number alongside
the device. -/
def UsbDevices.new : List RawDevice → Except UsbErrKind (List HsmDevice)
  | [] => .ok []
  | r :: rest =>
    if !r.descOk then .error .usbError
    else if r.vendorId != YUBICO_VENDOR_ID || r.productId != YUBIHSM2_PRODUCT_ID then
      UsbDevices.new rest
    else
      match probeDevice r with
      | .error e => .error e
      | .ok _ =>
        if !r.serialReadOk then .error .usbError
        else if !r.serialParseOk then .error .usbError
        else
          match UsbDevices.new rest with
          | .error e => .error e
          | .ok devs =>
            .ok (⟨r.serialNumber, r⟩ :: devs)

/-- The body of the `while let Some(device) = devices.0.pop()` search
loop shared by both `open` functions, on the already-reversed device list
(`pop` yields the devices rearmost-first): return the first device whose
serial number equals `sn`; `UsbError` when none matches. -/
def popLoop (sn : SerialNumber) : List Device → Except UsbErrKind Device
  | [] => .error .usbError
  | d :: rest => if d.serialNumber = sn then .ok d else popLoop sn rest

/-- The `pop` search loop: devices are popped from the end of the vector,
so the loop scans the reversed list. -/
def popFind (sn : SerialNumber) (ds : List Device) : Except UsbErrKind Device :=
  popLoop sn ds.reverse

/-- `popLoop` for the adapter generation's `HsmDevice` list
(`UsbDevices::open` runs the identical pop loop). -/
def popLoopHsm (sn : SerialNumber) : List HsmDevice → Except UsbErrKind HsmDevice
  | [] => .error .usbError
  | d :: rest => if d.serialNumber = sn then .ok d else popLoopHsm sn rest

/-- The `pop` search loop of `UsbDevices::open`. -/
def popFindHsm (sn : SerialNumber) (ds : List HsmDevice) : Except UsbErrKind HsmDevice :=
  popLoopHsm sn ds.reverse

/-- `Devices::open` from `src/connector/usb/device.rs`, as a function of
the already-detected device list: with a serial number, pop devices until
one matches and open it, else `UsbError`; with none, open the single
detected device, `UsbError` on zero ("no YubiHSM2 devices detected") or
more than one ("expected a single YubiHSM2 device").  Opening the selected
device (`UsbConnection::create`) is outside the excerpted sources and is
modelled as returning the device. -/
def Devices.openFrom (serialNumber : Option SerialNumber) (devs : List Device) :
    Except UsbErrKind Device :=
  match serialNumber with
  | some sn => popFind sn devs
  | none =>
    match devs with
    | [d] => .ok d
    | [] => .error .usbError
    | _ => .error .usbError

/-- `UsbDevices::open` from `src/adapters/usb/devices.rs`, as a function
of the already-detected device list: with a serial number, the same pop
loop; with none, `if devices.0.len() == 1` open it, else `UsbError`. -/
def UsbDevices.openFrom (serialNumber : Option SerialNumber) (devs : List HsmDevice) :
    Except UsbErrKind HsmDevice :=
  match serialNumber with
  | some sn => popFindHsm sn devs
  | none =>
    if devs.length = 1 then
      match devs with
      | d :: _ => .ok d
      | [] => .error .usbError
    else .error .usbError

/-- Forgetting the product name turns a connector-generation `Device` into
an adapter-generation `HsmDevice` over the same libusb device. -/
def Device.toHsm (d : Device) : HsmDevice := ⟨d.serialNumber, d.raw⟩

/-! ## HTTP response reader

Shallow embedding of `ResponseReader` from `src/adapters/http/mod.rs`.
Bytes are `Nat`s below 256; the socket is modelled as the list of chunks
successive `socket.read` calls return (a needed read with no chunk left is
a transport error, standing for the read timeout).  ASCII string constants
are embedded via their character codes. -/

/-- Byte list of an ASCII string constant. -/
def asciiBytes (s : String) : List Nat := s.data.map Char.toNat

/-- `MAX_RESPONSE_SIZE` from `src/adapters/http/mod.rs`. -/
def MAX_RESPONSE_SIZE : Nat := 4096

/-- `HEADER_DELIMITER` (`b"\r\n\r\n"`). -/
def HEADER_DELIMITER : List Nat := [13, 10, 13, 10]

/-- `HTTP_SUCCESS_STATUS` (`"HTTP/1.1 200 OK"`). -/
def HTTP_SUCCESS_STATUS : List Nat := asciiBytes "HTTP/1.1 200 OK"

/-- `CONTENT_LENGTH_HEADER` (`"Content-Length: "`). -/
def CONTENT_LENGTH_HEADER : List Nat := asciiBytes "Content-Length: "

/-- `TRANSFER_ENCODING_HEADER` (`"Transfer-Encoding: "`). -/
def TRANSFER_ENCODING_HEADER : List Nat := asciiBytes "Transfer-Encoding: "

/-- The `AdapterError` kinds reachable from the response reader paths:
`ResponseError` (`adapter_fail!`), the wrapped I/O error from a failed or
timed-out socket read, the wrapped `str::Utf8Error`, and the wrapped
`ParseIntError`. -/
inductive HttpErr where
  | responseError
  | transportError
  | utf8Error
  | parseIntError
deriving DecidableEq, Repr

/-- `ResponseReader`'s fields: the fixed `[u8; MAX_RESPONSE_SIZE]` buffer
(a list kept at length 4096), `pos`, `body_offset`, `content_length`. -/
structure RR where
  buffer : List Nat
  pos : Nat
  bodyOffset : Option Nat
  contentLength : Nat
deriving DecidableEq, Repr

/-- `fill_buffer`: `socket.read(&mut self.buffer[..])` writes the chunk at
the START of the buffer (offset 0, not `self.pos`), and `self.pos` is
advanced by the number of bytes read.  A read returns at most the buffer
length, hence the `take`. -/
def RR.fillBuffer (rr : RR) (chunk : List Nat) : RR :=
  let c := chunk.take MAX_RESPONSE_SIZE
  { rr with buffer := c ++ rr.buffer.drop c.length, pos := rr.pos + c.length }

/-- The delimiter scan inside `read_headers`, carrying the current offset
and the remaining slice length `self.buffer[offset..].len()` (the buffer
is the fixed `[u8; MAX_RESPONSE_SIZE]` array, so the remainder at offset
`o` has length `MAX_RESPONSE_SIZE - o`): while the remainder is strictly
longer than the 4-byte delimiter, test whether it starts with
`\r\n\r\n`; the first hit's offset is returned. -/
def scanDelimAux : Nat → Nat → List Nat → Option Nat
  | _, _, [] => none
  | off, n, b :: rest =>
    if n > HEADER_DELIMITER.length then
      if HEADER_DELIMITER.isPrefixOf (b :: rest) then some off
      else scanDelimAux (off + 1) (n - 1) rest
    else none

/-- The delimiter scan over the whole (4096-byte) buffer. -/
def scanDelim (l : List Nat) : Option Nat := scanDelimAux 0 MAX_RESPONSE_SIZE l

/-- Whether a byte is a UTF-8 continuation byte (`0x80..=0xBF`). -/
def isCont (b : Nat) : Bool := 0x80 ≤ b && b ≤ 0xBF

/-- `str::from_utf8` validation (RFC 3629: surrogates and overlong
encodings rejected). -/
def utf8Valid : List Nat → Bool
  | [] => true
  | b :: rest =>
    if b ≤ 0x7F then utf8Valid rest
    else if 0xC2 ≤ b && b ≤ 0xDF then
      match rest with
      | c1 :: r => isCont c1 && utf8Valid r
      | [] => false
    else if b = 0xE0 then
      match rest with
      | c1 :: c2 :: r => (0xA0 ≤ c1 && c1 ≤ 0xBF) && isCont c2 && utf8Valid r
      | _ => false
    else if (0xE1 ≤ b && b ≤ 0xEC) || b = 0xEE || b = 0xEF then
      match rest with
      | c1 :: c2 :: r => isCont c1 && isCont c2 && utf8Valid r
      | _ => false
    else if b = 0xED then
      match rest with
      | c1 :: c2 :: r => (0x80 ≤ c1 && c1 ≤ 0x9F) && isCont c2 && utf8Valid r
      | _ => false
    else if b = 0xF0 then
      match rest with
      | c1 :: c2 :: c3 :: r =>
        (0x90 ≤ c1 && c1 ≤ 0xBF) && isCont c2 && isCont c3 && utf8Valid r
      | _ => false
    else if 0xF1 ≤ b && b ≤ 0xF3 then
      match rest with
      | c1 :: c2 :: c3 :: r => isCont c1 && isCont c2 && isCont c3 && utf8Valid r
      | _ => false
    else if b = 0xF4 then
      match rest with
      | c1 :: c2 :: c3 :: r =>
        (0x80 ≤ c1 && c1 ≤ 0x8F) && isCont c2 && isCont c3 && utf8Valid r
      | _ => false
    else false

/-- `str::split("\r\n")`: leftmost, non-overlapping, keeping empty pieces
(always at least one piece). -/
def splitCrlf : List Nat → List (List Nat)
  | [] => [[]]
  | 13 :: 10 :: rest => [] :: splitCrlf rest
  | b :: rest =>
    match splitCrlf rest with
    | [] => [[b]]
    | h :: t => (b :: h) :: t

/-- `str::parse::<usize>`: an optional leading `+`, then one or more
decimal digits, value at most `usize::MAX` (64-bit). -/
def parseUsize (l : List Nat) : Option Nat :=
  let d := match l with
    | 43 :: r => r
    | _ => l
  if d.isEmpty then none
  else if !(d.all fun b => 48 ≤ b && b ≤ 57) then none
  else
    let v := d.foldl (fun a b => a * 10 + (b - 48)) 0
    if v < 2 ^ 64 then some v else none

/-- The header loop of `parse_headers`: for each header line, a
`Content-Length: ` line is parsed and checked against the space remaining
after `body_offset` (too large is a `ResponseError`); a
`Transfer-Encoding: ` line is a `ResponseError`; the last
`Content-Length` found wins. -/
def processHeaders (bodyOffset : Nat) : List (List Nat) → Nat → Except HttpErr Nat
  | [], acc => .ok acc
  | h :: t, _acc =>
    if CONTENT_LENGTH_HEADER.isPrefixOf h then
      match parseUsize (h.drop CONTENT_LENGTH_HEADER.length) with
      | none => .error .parseIntError
      | some n =>
        if MAX_RESPONSE_SIZE - bodyOffset < n then .error .responseError
        else processHeaders bodyOffset t n
    else if TRANSFER_ENCODING_HEADER.isPrefixOf h then .error .responseError
    else processHeaders bodyOffset t _acc

/-- `parse_headers`, with the `self.body_offset.unwrap()` value passed in
by the caller (`read_headers` has just set it): UTF-8-validate the bytes
up to `body_offset`, split on `\r\n`, require the `HTTP/1.1 200 OK`
status line, then run the header loop. -/
def RR.parseHeadersAt (rr : RR) (bodyOffset : Nat) : Except HttpErr RR :=
  let headerBytes := rr.buffer.take bodyOffset
  if !(utf8Valid headerBytes) then .error .utf8Error
  else
    match splitCrlf headerBytes with
    | [] => .error .responseError
    | status :: rest =>
      if status = HTTP_SUCCESS_STATUS then
        match processHeaders bodyOffset rest rr.contentLength with
        | .error e => .error e
        | .ok n => .ok { rr with contentLength := n }
      else .error .responseError

/-- `read_headers`: fill the buffer from the socket, scan the whole buffer
for the delimiter; when found, record `body_offset` and parse the headers;
when not found, fail with a `ResponseError` once `pos + 1` has reached
`MAX_RESPONSE_SIZE`, else loop.  Returns the reader, the body offset and
the unconsumed chunks. -/
def RR.readHeadersLoop (rr : RR) :
    List (List Nat) → Except HttpErr (RR × Nat × List (List Nat))
  | [] => .error .transportError
  | chunk :: rest =>
    let rr1 := rr.fillBuffer chunk
    match scanDelim rr1.buffer with
    | some off =>
      match RR.parseHeadersAt
          { rr1 with bodyOffset := some (off + HEADER_DELIMITER.length) }
          (off + HEADER_DELIMITER.length) with
      | .error e => .error e
      | .ok rr2 => .ok (rr2, off + HEADER_DELIMITER.length, rest)
    | none =>
      if rr1.pos + 1 ≥ MAX_RESPONSE_SIZE then .error .responseError
      else rr1.readHeadersLoop rest

/-- `read_body`: keep filling the buffer while `pos` is below
`content_length + body_offset`. -/
def RR.readBody (bodyEnd : Nat) (rr : RR) : List (List Nat) → Except HttpErr RR
  | [] => if rr.pos < bodyEnd then .error .transportError else .ok rr
  | chunk :: rest =>
    if rr.pos < bodyEnd then RR.readBody bodyEnd (rr.fillBuffer chunk) rest
    else .ok rr

/-- `ResponseReader::read`: zeroed buffer, `read_headers` then
`read_body`. -/
def ResponseReader.read (chunks : List (List Nat)) : Except HttpErr RR :=
  let rr0 : RR := ⟨List.replicate MAX_RESPONSE_SIZE 0, 0, none, 0⟩
  match rr0.readHeadersLoop chunks with
  | .error e => .error e
  | .ok (rr1, off, rest) => RR.readBody (rr1.contentLength + off) rr1 rest

/-- `Into<Vec<u8>>`: `Vec::from(&self.buffer[body_offset..self.pos])`.
`none` models the two panics: `body_offset` unset (`expect`), and slice
bounds violated (`body_offset > pos` or `pos > buffer.len()`). -/
def RR.intoVec (rr : RR) : Option (List Nat) :=
  match rr.bodyOffset with
  | none => none
  | some off =>
    if off ≤ rr.pos && rr.pos ≤ rr.buffer.length then
      some ((rr.buffer.take rr.pos).drop off)
    else none

/-! ## Secure channel (SCP03)

`src/securechannel/mod.rs` is only the module outline: the bodies of
`channel.rs`, `kdf.rs`, `static_keys.rs`, `mac.rs` etc. are absent from
the excerpted sources, so the channel state machine below is modelled from
the specification (§4.1–§4.5, §6, §7).  AES-128 and AES-CMAC are abstract
primitives: any length-preserving invertible block transform and any
16-byte-output keyed function. -/

/-- `KEY_SIZE` from `src/securechannel/mod.rs`: AES key size in bytes,
hardcoded to 128-bit. -/
def KEY_SIZE : Nat := 16

/-- AES/CMAC block size in bytes. -/
def BLOCK_SIZE : Nat := 16

/-- Modelled from the spec: the MAC tag truncation length (§9: SCP03 tags
truncated, commonly to 8 bytes; `MAC_SIZE` of `src/securechannel/mac.rs`
is absent from the excerpted sources). -/
def MAC_TAG_LEN : Nat := 8

/-- Modelled from the spec: the message-counter capacity (§4.4 edge case:
"counter is a 32-bit (or larger) monotonically increasing value";
exhausting it must force session termination). -/
def COUNTER_LIMIT : Nat := 2 ^ 32

/-- Modelled from the spec: the error taxonomy of §7
(`src/securechannel/error.rs` is absent from the excerpted sources). -/
inductive SCErr where
  | keyLengthInvalid
  | authenticationFailed
  | framingError
  | counterExhausted
  | transportError
  | protocolStateError
deriving DecidableEq, Repr

/-- Modelled from the spec: `StaticKeys`
(`src/securechannel/static_keys.rs` is absent from the excerpted sources):
the long-term pre-shared pair of one encryption key and one MAC key, each
exactly `KEY_SIZE` bytes (§3). -/
structure StaticKeys where
  encKey : List Nat
  macKey : List Nat
  encKey_len : encKey.length = KEY_SIZE
  macKey_len : macKey.length = KEY_SIZE

/-- An abstract block cipher (AES-128 in the implementation): a keyed
length-preserving block transform with an inverse on full blocks. -/
structure BlockCipher where
  enc : List Nat → List Nat → List Nat
  dec : List Nat → List Nat → List Nat
  enc_len : ∀ k b, (enc k b).length = b.length
  dec_enc : ∀ k b, b.length = BLOCK_SIZE → dec k (enc k b) = b

/-- An abstract CMAC (AES-128-CMAC in the implementation): a keyed
function with `BLOCK_SIZE`-byte output. -/
structure CMACFun where
  f : List Nat → List Nat → List Nat
  f_len : ∀ k m, (f k m).length = BLOCK_SIZE

/-- Big-endian encoding of `k` into exactly `n` bytes (truncating mod
`256^n`). -/
def beBytes : Nat → Nat → List Nat
  | 0, _ => []
  | n + 1, k => beBytes n (k / 256) ++ [k % 256]

/-- Byte-wise XOR of two equal-length byte strings. -/
def xorB (a b : List Nat) : List Nat := List.zipWith (fun x y => x ^^^ y) a b

/-- Modelled from the spec: the fixed byte-padding scheme of §4.3 step 2
(SCP03 / ISO 7816-4 padding: append `0x80` then zero bytes up to the
cipher block size). -/
def pad80 (m : List Nat) : List Nat :=
  m ++ 128 :: List.replicate ((BLOCK_SIZE - (m.length + 1) % BLOCK_SIZE) % BLOCK_SIZE) 0

/-- Modelled from the spec: padding removal (§4.4 step 3); `none` when the
padding is malformed. -/
def unpad80 (l : List Nat) : Option (List Nat) :=
  match l.reverse.dropWhile (· == 0) with
  | 128 :: rest => some rest.reverse
  | _ => none

/-- Split a byte string into `BLOCK_SIZE`-byte blocks (last block shorter
when the length is not a multiple). -/
def toBlocks (l : List Nat) : List (List Nat) :=
  if l.isEmpty then []
  else l.take BLOCK_SIZE :: toBlocks (l.drop BLOCK_SIZE)
termination_by l.length
decreasing_by
  cases l with
  | nil => simp_all
  | cons a t => simp [BLOCK_SIZE]; omega

/-- Reassemble blocks into a byte string. -/
def fromBlocks (bs : List (List Nat)) : List Nat := bs.flatten

/-- CBC-mode encryption over a block list: each ciphertext block is the
IV for the next. -/
def cbcEnc (E : BlockCipher) (key : List Nat) : List Nat → List (List Nat) → List (List Nat)
  | _, [] => []
  | iv, b :: bs =>
    let c := E.enc key (xorB iv b)
    c :: cbcEnc E key c bs

/-- CBC-mode decryption over a block list. -/
def cbcDec (E : BlockCipher) (key : List Nat) : List Nat → List (List Nat) → List (List Nat)
  | _, [] => []
  | iv, c :: cs => xorB iv (E.dec key c) :: cbcDec E key c cs

/-- Modelled from the spec: the live `Channel` state
(`src/securechannel/channel.rs` is absent from the excerpted sources):
session id, the three derived session keys, the message counter and the
running MAC-chaining value (§3, §4.3, §4.4). -/
structure Channel where
  sessionId : Nat
  encKey : List Nat
  macKey : List Nat
  rmacKey : List Nat
  counter : Nat
  prevMac : List Nat
deriving DecidableEq, Repr

/-- Modelled from the spec: channel establishment (§4.2 step 6): the
message counter starts at 1 and the chaining value is the MAC of the
authenticate-session command. -/
def Channel.init (sessionId : Nat) (encKey macKey rmacKey initialMac : List Nat) : Channel :=
  ⟨sessionId, encKey, macKey, rmacKey, 1, initialMac⟩

/-- Modelled from the spec: the per-message CBC IV (§4.3 step 1): the
16-byte big-endian encoding of the current counter value. -/
def Channel.wrapIV (ch : Channel) : List Nat := beBytes BLOCK_SIZE ch.counter

/-- Modelled from the spec: the KDF of §4.1 (`src/securechannel/kdf.rs`
is absent from the excerpted sources): single-block CMAC-counter-mode
derivation over `counter(2,BE,=1) ‖ label ‖ 0x00 ‖ context ‖ bits(2,BE)`,
truncated to `outputLen`; an `outputLen` beyond the block size fails
rather than truncating the request. -/
def kdf (M : CMACFun) (key : List Nat) (label : Nat) (context : List Nat)
    (outputLen : Nat) : Except SCErr (List Nat) :=
  if outputLen > BLOCK_SIZE then .error .keyLengthInvalid
  else
    .ok ((M.f key (beBytes 2 1 ++ label :: 0 :: context ++ beBytes 2 (outputLen * 8))).take
      outputLen)

/-- Modelled from the spec: `wrap` (§4.3, §4.5, §4.4 edge case;
`src/securechannel/channel.rs` is absent from the excerpted sources): an
exhausted counter terminates the session; a padded payload that cannot be
framed in the 2-byte length field is a framing error before any I/O; else
CBC-encrypt under the counter IV, CMAC `session_id ‖ instruction ‖
ciphertext` chained on the previous MAC, emit the §6 envelope, store the
full MAC and increment the counter by one. -/
def Channel.wrap (E : BlockCipher) (M : CMACFun) (ch : Channel) (instruction : Nat)
    (m : List Nat) : Except SCErr (List Nat × Channel) :=
  if ch.counter ≥ COUNTER_LIMIT then .error .counterExhausted
  else
    let padded := pad80 m
    if padded.length > 0xFFFF then .error .framingError
    else
      let ct := fromBlocks (cbcEnc E ch.encKey ch.wrapIV (toBlocks padded))
      let full := M.f ch.macKey (ch.prevMac ++ ch.sessionId :: instruction :: ct)
      let out := instruction :: ch.sessionId :: (beBytes 2 ct.length ++ ct ++ full.take MAC_TAG_LEN)
      .ok (out, { ch with counter := ch.counter + 1, prevMac := full })

/-- Modelled from the spec: `unwrap` (§4.4;
`src/securechannel/channel.rs` is absent from the excerpted sources), in
the receiver-of-a-command direction used by the §8 round-trip property
(both sides share keys and chaining state, so verification uses the same
MAC key and previous-MAC value the sender used): parse the §6 envelope
(framing error when malformed), recompute the chained CMAC and compare
tags (authentication error on mismatch, before any decryption), then
CBC-decrypt under the same counter IV, strip the padding, and update the
chaining state. -/
def Channel.unwrap (E : BlockCipher) (M : CMACFun) (ch : Channel) (bytes : List Nat) :
    Except SCErr (List Nat × Channel) :=
  match bytes with
  | instruction :: sid :: hi :: lo :: rest =>
    let len := hi * 256 + lo
    if rest.length ≠ len + MAC_TAG_LEN then .error .framingError
    else
      let ct := rest.take len
      let tag := rest.drop len
      let full := M.f ch.macKey (ch.prevMac ++ sid :: instruction :: ct)
      if tag ≠ full.take MAC_TAG_LEN then .error .authenticationFailed
      else
        match unpad80 (fromBlocks (cbcDec E ch.encKey ch.wrapIV (toBlocks ct))) with
        | none => .error .framingError
        | some m => .ok (m, { ch with counter := ch.counter + 1, prevMac := full })
  | _ => .error .framingError

/-- The IVs consumed by a run of successive `wrap` calls (stopping at the
first failure): the trace §8's counter-monotonicity / IV-freshness
property quantifies over. -/
def Channel.wrapTrace (E : BlockCipher) (M : CMACFun) :
    Channel → List (Nat × List Nat) → List (List Nat)
  | _, [] => []
  | ch, (i, m) :: rest =>
    match ch.wrap E M i m with
    | .ok (_, ch') => ch.wrapIV :: Channel.wrapTrace E M ch' rest
    | .error _ => []

/-! ## Concrete primitive instances (used to instantiate the abstract
cipher/CMAC parameters on concrete inputs) -/

/-- The identity block transform: a (degenerate) `BlockCipher`
instance. -/
def idCipher : BlockCipher :=
  ⟨fun _ b => b, fun _ b => b, fun _ _ => rfl, fun _ _ _ => rfl⟩

/-- A constant-output keyed function: a (degenerate) `CMACFun`
instance. -/
def constCMAC : CMACFun :=
  ⟨fun _ _ => List.replicate BLOCK_SIZE 0, fun _ _ => by simp⟩

/-! ## Theorems -/

/-- C7: the channel's AES key size constant `KEY_SIZE` equals 16 bytes
(128 bits), and a `StaticKeys` pair consists of one encryption key and one
MAC key of exactly 16 bytes each, 32 bytes in total. -/
theorem c7_key_size_is_128_bit :
    KEY_SIZE = 16 ∧
      ∀ sk : StaticKeys,
        sk.encKey.length = 16 ∧ sk.macKey.length = 16 ∧
          sk.encKey.length + sk.macKey.length = 32 := by
  refine ⟨rfl, fun sk => ?_⟩
  have h1 := sk.encKey_len
  have h2 := sk.macKey_len
  simp only [KEY_SIZE] at h1 h2
  exact ⟨h1, h2, by omega⟩

/-- C5: the key derivation function fails with `KeyLengthInvalid` whenever
the requested output length exceeds the CMAC block size, and a successful
derivation has exactly the requested length (no silent truncation). -/
theorem c5_kdf_rejects_oversized_output (M : CMACFun) (key : List Nat) (label : Nat)
    (context : List Nat) (n : Nat) :
    (BLOCK_SIZE < n → kdf M key label context n = .error .keyLengthInvalid) ∧
      ∀ out, kdf M key label context n = .ok out → out.length = n ∧ n ≤ BLOCK_SIZE := by
  constructor
  · intro h
    simp only [kdf, gt_iff_lt, h, if_true]
  · intro out h
    by_cases hn : n > BLOCK_SIZE
    · simp only [kdf, hn, if_true] at h
      exact absurd h (by simp)
    · simp only [kdf, hn, if_false] at h
      have hlen := M.f_len key
          (beBytes 2 1 ++ label :: 0 :: context ++ beBytes 2 (n * 8))
      have hout : out = (M.f key
          (beBytes 2 1 ++ label :: 0 :: context ++ beBytes 2 (n * 8))).take n :=
        (Except.ok.injEq _ _ ▸ h).symm
      subst hout
      constructor
      · simp only [List.length_take, hlen]
        omega
      · omega

/-- Whether the header delimiter `\r\n\r\n` occurs anywhere in a byte
stream. -/
def containsDelim : List Nat → Bool
  | [] => false
  | b :: rest => HEADER_DELIMITER.isPrefixOf (b :: rest) || containsDelim rest

/-- A one-chunk 200 OK response header block with `Content-Length: 5`
(38 bytes, delimiter at offset 34). -/
def c10Headers : List Nat := asciiBytes "HTTP/1.1 200 OK\r\nContent-Length: 5\r\n\r\n"

/-- A full-buffer-sized socket read arriving while the 5-byte body is
awaited. -/
def c10Body : List Nat := List.replicate MAX_RESPONSE_SIZE 65

/-- A 4094-byte header fragment with no `\r` at all and a single `\n` at
index 18. -/
def c1chunk1 : List Nat := List.replicate 18 120 ++ 10 :: List.replicate 4075 120

/-- An 18-byte fragment that overwrites the buffer start with a 200 OK
status line and an incomplete delimiter. -/
def c1chunk2 : List Nat := asciiBytes "HTTP/1.1 200 OK\r\n\r"

theorem popLoop_ok (sn : SerialNumber) :
    ∀ ds d, popLoop sn ds = .ok d → d.serialNumber = sn ∧ d ∈ ds := by
  intro ds
  induction ds with
  | nil => intro d h; exact absurd h (by simp [popLoop])
  | cons a t ih =>
    intro d h
    rw [popLoop] at h
    by_cases ha : a.serialNumber = sn
    · rw [if_pos ha] at h
      cases h
      exact ⟨ha, List.mem_cons_self a t⟩
    · rw [if_neg ha] at h
      have := ih d h
      exact ⟨this.1, List.mem_cons_of_mem a this.2⟩

theorem popLoop_all_miss (sn : SerialNumber) :
    ∀ ds, (∀ d ∈ ds, d.serialNumber ≠ sn) → popLoop sn ds = .error .usbError := by
  intro ds
  induction ds with
  | nil => intro _; rfl
  | cons a t ih =>
    intro hall
    rw [popLoop, if_neg (hall a (List.mem_cons_self a t))]
    exact ih fun d hd => hall d (List.mem_cons_of_mem a hd)

/-- C2: when a serial number is supplied, `Devices::open` selects only a
detected device with that exact serial number and returns `UsbError` when
no detected device has it; when no serial number is supplied, it opens the
device exactly when a single device is detected and errors otherwise. -/
theorem c2_open_device_selection (sn : SerialNumber) (ds : List Device) :
    (∀ d, Devices.openFrom (some sn) ds = .ok d → d.serialNumber = sn ∧ d ∈ ds) ∧
      ((∀ d ∈ ds, d.serialNumber ≠ sn) →
        Devices.openFrom (some sn) ds = .error .usbError) ∧
      (∀ d, Devices.openFrom none ds = .ok d → ds = [d]) ∧
      (∀ d, ds = [d] → Devices.openFrom none ds = .ok d) ∧
      (ds.length ≠ 1 → Devices.openFrom none ds = .error .usbError) := by
  refine ⟨?_, ?_, ?_, ?_, ?_⟩
  · intro d h
    have := popLoop_ok sn ds.reverse d h
    exact ⟨this.1, List.mem_reverse.mp this.2⟩
  · intro hall
    exact popLoop_all_miss sn ds.reverse fun d hd =>
      hall d (List.mem_reverse.mp hd)
  · intro d h
    match ds, h with
    | [d'], h => cases h; rfl
  · intro d h
    subst h
    rfl
  · intro hlen
    match ds, hlen with
    | [], _ => rfl
    | _ :: _ :: _, _ => rfl
    | [d], hlen => exact absurd rfl hlen

/-- A well-behaved enumerated YubiHSM2 device, for concrete
instantiations. -/
def sampleRaw : RawDevice :=
  ⟨0x1050, 0x0030, true, true, .ok, true, [9], true, true, true, true,
    ⟨"0123456789"⟩, "Yubico YubiHSM"⟩

/-- `sampleRaw` as a connector-generation detected device. -/
def sampleDevice : Device := ⟨sampleRaw, sampleRaw.productName, sampleRaw.serialNumber⟩

/-- Witness for C2: with no matching device the open fails with
`UsbError`; with exactly one detected device and no serial filter, that
device is opened. -/
theorem c2_open_device_selection_witness :
    Devices.openFrom (some ⟨"0000000001"⟩) [] = .error .usbError ∧
      Devices.openFrom none [sampleDevice] = .ok sampleDevice := by
  exact ⟨(c2_open_device_selection ⟨"0000000001"⟩ []).2.1 (by simp),
    (c2_open_device_selection ⟨"0000000001"⟩ _).2.2.2.1 _ rfl⟩

theorem popLoop_map (sn : SerialNumber) :
    ∀ ds : List Device,
      popLoopHsm sn (ds.map Device.toHsm) = (popLoop sn ds).map Device.toHsm := by
  intro ds
  induction ds with
  | nil => rfl
  | cons a t ih =>
    simp only [List.map_cons, popLoopHsm, popLoop]
    by_cases ha : a.serialNumber = sn
    · rw [if_pos ha, if_pos (show a.toHsm.serialNumber = sn from ha)]
      rfl
    · rw [if_neg ha, if_neg (show ¬a.toHsm.serialNumber = sn from ha)]
      exact ih

/-- C9: the two generations of the USB open logic are behaviourally
equivalent: on any detected device list and optional serial number,
`UsbDevices::open` (adapters) run on the image of the list selects
exactly the image of the device `Devices::open` (connector) selects, and
errors exactly when it errors (with the same error kind). -/
theorem c9_open_generations_equivalent (sn? : Option SerialNumber) (ds : List Device) :
    UsbDevices.openFrom sn? (ds.map Device.toHsm) =
      (Devices.openFrom sn? ds).map Device.toHsm := by
  match sn? with
  | some sn =>
    show popFindHsm sn (ds.map Device.toHsm) = (popFind sn ds).map Device.toHsm
    rw [popFindHsm, popFind, ← List.map_reverse]
    exact popLoop_map sn ds.reverse
  | none =>
    match ds with
    | [] => rfl
    | [d] => rfl
    | d :: d' :: t =>
      simp only [UsbDevices.openFrom, Devices.openFrom, List.map_cons, List.length_cons]
      rw [if_neg (by simp)]
      rfl

theorem detect_vendor_product :
    ∀ raws devs, Devices.detect raws = .ok devs →
      ∀ d ∈ devs, d.raw.vendorId = 0x1050 ∧ d.raw.productId = 0x0030 := by
  intro raws
  induction raws with
  | nil =>
    intro devs h d hd
    cases h
    simp at hd
  | cons r rest ih =>
    intro devs h d hd
    rw [Devices.detect] at h
    split at h
    · simp at h
    · split at h
      · exact ih devs h d hd
      · rename_i hfilter
        split at h
        · simp at h
        · split at h
          · simp at h
          · split at h
            · simp at h
            · split at h
              · simp at h
              · rename_i devs' hrest
                have hcons := Except.ok.inj h
                subst hcons
                simp only [Bool.not_eq_true, Bool.not_eq_true', Bool.or_eq_false_iff,
                  bne_eq_false_iff_eq] at hfilter
                rcases List.mem_cons.mp hd with rfl | hmem
                · exact ⟨hfilter.1, hfilter.2⟩
                · exact ih devs' hrest d hmem

theorem new_vendor_product :
    ∀ raws devs, UsbDevices.new raws = .ok devs →
      ∀ d ∈ devs, d.raw.vendorId = 0x1050 ∧ d.raw.productId = 0x0030 := by
  intro raws
  induction raws with
  | nil =>
    intro devs h d hd
    cases h
    simp at hd
  | cons r rest ih =>
    intro devs h d hd
    rw [UsbDevices.new] at h
    split at h
    · simp at h
    · split at h
      · exact ih devs h d hd
      · rename_i hfilter
        split at h
        · simp at h
        · split at h
          · simp at h
          · split at h
            · simp at h
            · split at h
              · simp at h
              · rename_i devs' hrest
                have hcons := Except.ok.inj h
                subst hcons
                simp only [Bool.not_eq_true, Bool.not_eq_true', Bool.or_eq_false_iff,
                  bne_eq_false_iff_eq] at hfilter
                rcases List.mem_cons.mp hd with rfl | hmem
                · exact ⟨hfilter.1, hfilter.2⟩
                · exact ih devs' hrest d hmem

/-- C6: every device in the collection returned by a successful
`Devices::detect` (and by the older `UsbDevices::new`) has USB vendor id
0x1050 (Yubico) and product id 0x0030 (YubiHSM2); any other vendor/product
pair is skipped. -/
theorem c6_detect_only_yubihsm2 :
    (∀ raws devs, Devices.detect raws = .ok devs →
        ∀ d ∈ devs, d.raw.vendorId = 0x1050 ∧ d.raw.productId = 0x0030) ∧
      ∀ raws devs, UsbDevices.new raws = .ok devs →
        ∀ h ∈ devs, h.raw.vendorId = 0x1050 ∧ h.raw.productId = 0x0030 :=
  ⟨detect_vendor_product, new_vendor_product⟩

/-- Witness for C6: a detection run over one conforming and one foreign
device returns a collection whose single member carries the Yubico
vendor id and YubiHSM2 product id. -/
theorem c6_detect_only_yubihsm2_witness :
    sampleDevice.raw.vendorId = 0x1050 ∧ sampleDevice.raw.productId = 0x0030 :=
  c6_detect_only_yubihsm2.1
    [⟨0xffff, 0x1, true, false, .otherError, false, [], false, false, false, false,
        ⟨"x"⟩, "other"⟩, sampleRaw]
    [sampleDevice] rfl sampleDevice (by simp)

theorem c10Headers_length : c10Headers.length = 38 := by decide

theorem delim_not_prefixOf_of_ne13 (b : Nat) (l : List Nat) (hb : ¬b = 13) :
    HEADER_DELIMITER.isPrefixOf (b :: l) = false := by
  have hbeq : (13 == b) = false := by
    rw [beq_eq_false_iff_ne]
    exact fun h => hb h.symm
  show ((13 == b) && List.isPrefixOf [10, 13, 10] l) = false
  rw [hbeq, Bool.false_and]

theorem scanDelimAux_none_of_no13 :
    ∀ (l : List Nat) (off n : Nat), (∀ x ∈ l, ¬x = 13) → scanDelimAux off n l = none := by
  intro l
  induction l with
  | nil => intro off n _; rfl
  | cons b rest ih =>
    intro off n hall
    rw [scanDelimAux]
    by_cases hn : n > HEADER_DELIMITER.length
    · rw [if_pos hn, delim_not_prefixOf_of_ne13 b rest (hall b (List.mem_cons_self b rest))]
      simp only [Bool.false_eq_true, if_false]
      exact ih (off + 1) (n - 1) fun x hx => hall x (List.mem_cons_of_mem b hx)
    · rw [if_neg hn]

theorem containsDelim_append_of_no13 (l s : List Nat) (h : ∀ x ∈ l, ¬x = 13) :
    containsDelim (l ++ s) = containsDelim s := by
  induction l with
  | nil => rfl
  | cons b rest ih =>
    rw [List.cons_append, containsDelim,
      delim_not_prefixOf_of_ne13 b (rest ++ s) (h b (List.mem_cons_self b rest)),
      Bool.false_or]
    exact ih fun x hx => h x (List.mem_cons_of_mem b hx)

theorem c10_fill1 :
    RR.fillBuffer ⟨List.replicate MAX_RESPONSE_SIZE 0, 0, none, 0⟩ c10Headers =
      ⟨c10Headers ++ List.replicate 4058 0, 38, none, 0⟩ := by
  have ht : List.take MAX_RESPONSE_SIZE c10Headers = c10Headers :=
    List.take_of_length_le (by rw [c10Headers_length]; decide)
  have hd : (List.replicate MAX_RESPONSE_SIZE (0 : Nat)).drop 38 = List.replicate 4058 0 := by
    rw [List.drop_replicate]
    rfl
  simp only [RR.fillBuffer, ht, c10Headers_length, hd]

theorem c10_scan1 : scanDelim (c10Headers ++ List.replicate 4058 0) = some 34 := by
  decide

theorem c10_parse1 :
    RR.parseHeadersAt ⟨c10Headers ++ List.replicate 4058 0, 38, some 38, 0⟩ 38 =
      .ok ⟨c10Headers ++ List.replicate 4058 0, 38, some 38, 5⟩ := by
  have htake : (c10Headers ++ List.replicate 4058 0).take 38 = c10Headers := by
    conv_lhs => rw [show (38 : Nat) = c10Headers.length from c10Headers_length.symm]
    exact List.take_left _ _
  have hutf : utf8Valid c10Headers = true := by decide
  have hsplit : splitCrlf c10Headers =
      [asciiBytes "HTTP/1.1 200 OK", asciiBytes "Content-Length: 5", [], []] := by decide
  have hproc : processHeaders 38 [asciiBytes "Content-Length: 5", [], []] 0 = .ok 5 := by
    decide
  simp only [RR.parseHeadersAt, htake, hutf, Bool.not_true, Bool.false_eq_true, if_false,
    hsplit, HTTP_SUCCESS_STATUS, eq_self_iff_true, if_true, hproc]

theorem c10_loop :
    RR.readHeadersLoop ⟨List.replicate MAX_RESPONSE_SIZE 0, 0, none, 0⟩
        [c10Headers, c10Body] =
      .ok (⟨c10Headers ++ List.replicate 4058 0, 38, some 38, 5⟩, 38, [c10Body]) := by
  rw [RR.readHeadersLoop]
  simp only [c10_fill1, c10_scan1]
  have h38 : (34 : Nat) + HEADER_DELIMITER.length = 38 := rfl
  simp only [h38, c10_parse1]

theorem c10_fill2 :
    RR.fillBuffer ⟨c10Headers ++ List.replicate 4058 0, 38, some 38, 5⟩ c10Body =
      ⟨c10Body ++ [], 4134, some 38, 5⟩ := by
  have h2 : c10Body.length = 4096 := List.length_replicate MAX_RESPONSE_SIZE 65
  have h1 : List.take MAX_RESPONSE_SIZE c10Body = c10Body :=
    List.take_of_length_le (le_of_eq h2)
  have h3 : (c10Headers ++ List.replicate 4058 0).drop 4096 = [] := by
    have hl : (c10Headers ++ List.replicate 4058 0).length = 4096 := by
      rw [List.length_append, c10Headers_length, List.length_replicate]
    rw [← hl, List.drop_length]
  simp only [RR.fillBuffer, h1, h2, h3]

theorem c10_read_eq :
    ResponseReader.read [c10Headers, c10Body] = .ok ⟨c10Body ++ [], 4134, some 38, 5⟩ := by
  rw [ResponseReader.read]
  simp only [c10_loop]
  rw [RR.readBody, if_pos (by decide)]
  rw [c10_fill2]
  rw [RR.readBody, if_neg (by decide)]

/-- C10 (code bug): `fill_buffer` reads into `&mut self.buffer[..]`
(offset 0) yet still advances `pos` by the bytes read, so a full-buffer
socket read during `read_body` drives `pos` to 4134 > `MAX_RESPONSE_SIZE`;
`ResponseReader::read` succeeds with `pos` past the buffer end, and the
`Into<Vec<u8>>` slice `buffer[body_offset..pos]` is out of bounds (a
panic, modelled as `none`). -/
theorem c10_read_pos_exceeds_buffer :
    (ResponseReader.read [c10Headers, c10Body]).toOption.map
        (fun rr => (rr.pos, rr.intoVec)) = some (4134, none) ∧
      MAX_RESPONSE_SIZE < 4134 := by
  refine ⟨?_, by decide⟩
  have hlen : (c10Body ++ ([] : List Nat)).length = 4096 := by
    rw [List.append_nil]
    exact List.length_replicate MAX_RESPONSE_SIZE 65
  have hiv : RR.intoVec ⟨c10Body ++ [], 4134, some 38, 5⟩ = none := by
    simp only [RR.intoVec, hlen]
    rw [if_neg (by decide)]
  rw [c10_read_eq]
  show some ((4134 : Nat), RR.intoVec ⟨c10Body ++ [], 4134, some 38, 5⟩) = some (4134, none)
  rw [hiv]

theorem c1chunk1_length : c1chunk1.length = 4094 := by
  show (List.replicate 18 (120 : Nat) ++ 10 :: List.replicate 4075 120).length = 4094
  rw [List.length_append, List.length_replicate, List.length_cons, List.length_replicate]

theorem c1chunk2_length : c1chunk2.length = 18 := by decide

theorem c1chunk1_no13 : ∀ x ∈ c1chunk1 ++ List.replicate 2 0, ¬x = 13 := by
  intro x hx
  simp only [c1chunk1, List.mem_append, List.mem_replicate, List.mem_cons] at hx
  rcases hx with (⟨-, rfl⟩ | rfl | ⟨-, rfl⟩) | ⟨-, rfl⟩ <;> decide

theorem c1_fill1 :
    RR.fillBuffer ⟨List.replicate MAX_RESPONSE_SIZE 0, 0, none, 0⟩ c1chunk1 =
      ⟨c1chunk1 ++ List.replicate 2 0, 4094, none, 0⟩ := by
  have ht : List.take MAX_RESPONSE_SIZE c1chunk1 = c1chunk1 :=
    List.take_of_length_le (by rw [c1chunk1_length]; decide)
  have hd : (List.replicate MAX_RESPONSE_SIZE (0 : Nat)).drop 4094 = List.replicate 2 0 := by
    rw [List.drop_replicate]
    rfl
  simp only [RR.fillBuffer, ht, c1chunk1_length, hd]

theorem c1_scan1 : scanDelim (c1chunk1 ++ List.replicate 2 0) = none :=
  scanDelimAux_none_of_no13 _ 0 MAX_RESPONSE_SIZE c1chunk1_no13

theorem c1_fill2 :
    RR.fillBuffer ⟨c1chunk1 ++ List.replicate 2 0, 4094, none, 0⟩ c1chunk2 =
      ⟨c1chunk2 ++ ((10 :: List.replicate 4075 120) ++ List.replicate 2 0), 4112,
        none, 0⟩ := by
  have ht : List.take MAX_RESPONSE_SIZE c1chunk2 = c1chunk2 :=
    List.take_of_length_le (by rw [c1chunk2_length]; decide)
  have hd : (c1chunk1 ++ List.replicate 2 0).drop 18 =
      (10 :: List.replicate 4075 120) ++ List.replicate 2 0 := by
    rw [show c1chunk1 = List.replicate 18 120 ++ (10 :: List.replicate 4075 120) from rfl]
    rw [List.append_assoc]
    rw [show (18 : Nat) = (List.replicate 18 (120 : Nat)).length from
      (List.length_replicate _ _).symm]
    exact List.drop_left _ _
  simp only [RR.fillBuffer, ht, c1chunk2_length, hd]

theorem c1_scan2 :
    scanDelim (c1chunk2 ++ ((10 :: List.replicate 4075 120) ++ List.replicate 2 0)) =
      some 15 := by
  decide

theorem c1_parse2 :
    RR.parseHeadersAt
        ⟨c1chunk2 ++ ((10 :: List.replicate 4075 120) ++ List.replicate 2 0), 4112,
          some 19, 0⟩ 19 =
      .ok ⟨c1chunk2 ++ ((10 :: List.replicate 4075 120) ++ List.replicate 2 0), 4112,
        some 19, 0⟩ := by
  have htake :
      (c1chunk2 ++ ((10 :: List.replicate 4075 120) ++ List.replicate 2 0)).take 19 =
        c1chunk2 ++ [10] := by
    rw [show (19 : Nat) = c1chunk2.length + 1 from by rw [c1chunk2_length]]
    rw [List.take_append]
    rfl
  have hutf : utf8Valid (c1chunk2 ++ [10]) = true := by decide
  have hsplit : splitCrlf (c1chunk2 ++ [10]) = [asciiBytes "HTTP/1.1 200 OK", [], []] := by
    decide
  have hproc : processHeaders 19 [[], []] 0 = .ok 0 := by decide
  simp only [RR.parseHeadersAt, htake, hutf, Bool.not_true, Bool.false_eq_true, if_false,
    hsplit, HTTP_SUCCESS_STATUS, eq_self_iff_true, if_true, hproc]

theorem c1_loop :
    RR.readHeadersLoop ⟨List.replicate MAX_RESPONSE_SIZE 0, 0, none, 0⟩
        [c1chunk1, c1chunk2] =
      .ok (⟨c1chunk2 ++ ((10 :: List.replicate 4075 120) ++ List.replicate 2 0), 4112,
        some 19, 0⟩, 19, []) := by
  rw [RR.readHeadersLoop]
  simp only [c1_fill1, c1_scan1]
  rw [if_neg (by decide)]
  rw [RR.readHeadersLoop]
  simp only [c1_fill2, c1_scan2]
  have h19 : (15 : Nat) + HEADER_DELIMITER.length = 19 := rfl
  simp only [h19, c1_parse2]

theorem c1_read_eq :
    ResponseReader.read [c1chunk1, c1chunk2] =
      .ok ⟨c1chunk2 ++ ((10 :: List.replicate 4075 120) ++ List.replicate 2 0), 4112,
        some 19, 0⟩ := by
  rw [ResponseReader.read]
  simp only [c1_loop]
  rw [RR.readBody, if_neg (by decide)]

/-- C1 (code bug): a response whose header stream is 4112 bytes long and
never contains the `\r\n\r\n` delimiter — headers exceeding the
4096-byte hard maximum — is accepted rather than rejected with
`ResponseError`: the second socket read overwrites the buffer start
(`fill_buffer` reads at offset 0, not `pos`), stale bytes complete a fake
delimiter, and `ResponseReader::read` returns success with `pos` = 4112 >
`MAX_RESPONSE_SIZE` (so the subsequent `Into<Vec<u8>>` conversion
panics, modelled as `none`). -/
theorem c1_oversized_headers_accepted :
    (c1chunk1 ++ c1chunk2).length = 4112 ∧
      containsDelim (c1chunk1 ++ c1chunk2) = false ∧
      (ResponseReader.read [c1chunk1, c1chunk2]).toOption.map
          (fun rr => (rr.pos, rr.intoVec)) = some (4112, none) ∧
      MAX_RESPONSE_SIZE < 4112 := by
  refine ⟨?_, ?_, ?_, by decide⟩
  · rw [List.length_append, c1chunk1_length, c1chunk2_length]
  · have h13 : ∀ x ∈ c1chunk1, ¬x = 13 := fun x hx =>
      c1chunk1_no13 x (List.mem_append.mpr (Or.inl hx))
    rw [containsDelim_append_of_no13 c1chunk1 c1chunk2 h13]
    decide
  · have hlen :
        (c1chunk2 ++ ((10 :: List.replicate 4075 120) ++ List.replicate 2 0)).length =
          4096 := by
      rw [List.length_append, c1chunk2_length, List.length_append, List.length_cons,
        List.length_replicate, List.length_replicate]
    have hiv : RR.intoVec ⟨c1chunk2 ++ ((10 :: List.replicate 4075 120) ++
        List.replicate 2 0), 4112, some 19, 0⟩ = none := by
      simp only [RR.intoVec, hlen]
      rw [if_neg (by decide)]
    rw [c1_read_eq]
    show some ((4112 : Nat), RR.intoVec ⟨c1chunk2 ++ ((10 :: List.replicate 4075 120) ++
      List.replicate 2 0), 4112, some 19, 0⟩) = some (4112, none)
    rw [hiv]

/-- Witness for C5: a 17-byte derivation request fails with
`KeyLengthInvalid`, and a successful 8-byte request yields exactly 8
bytes. -/
theorem c5_kdf_rejects_oversized_output_witness :
    kdf constCMAC (List.replicate 16 0) 4 [] 17 = .error .keyLengthInvalid ∧
      ((List.replicate 8 (0 : Nat)).length = 8 ∧ 8 ≤ BLOCK_SIZE) := by
  exact ⟨(c5_kdf_rejects_oversized_output constCMAC (List.replicate 16 0) 4 [] 17).1
      (by decide),
    (c5_kdf_rejects_oversized_output constCMAC (List.replicate 16 0) 4 [] 8).2
      (List.replicate 8 0) rfl⟩

theorem beBytes_length (n : Nat) : ∀ k, (beBytes n k).length = n := by
  induction n with
  | zero => intro k; rfl
  | succ m ih =>
    intro k
    simp only [beBytes, List.length_append, ih, List.length_cons, List.length_nil]

/-- Big-endian decoding, inverse to `beBytes` below the radix bound. -/
def beVal (l : List Nat) : Nat := l.foldl (fun a b => a * 256 + b) 0

theorem beVal_append_singleton (xs : List Nat) (b : Nat) :
    beVal (xs ++ [b]) = beVal xs * 256 + b := by
  rw [beVal, beVal, List.foldl_append]
  rfl

theorem beVal_beBytes (n : Nat) : ∀ k, beVal (beBytes n k) = k % 256 ^ n := by
  induction n with
  | zero => intro k; simp [beBytes, beVal, Nat.mod_one]
  | succ m ih =>
    intro k
    rw [beBytes, beVal_append_singleton, ih]
    have hpow : (256 : Nat) ^ (m + 1) = 256 * 256 ^ m := by
      rw [pow_succ, Nat.mul_comm]
    rw [hpow, Nat.mod_mul]
    omega

theorem beBytes_inj {n a b : Nat} (ha : a < 256 ^ n) (hb : b < 256 ^ n)
    (h : beBytes n a = beBytes n b) : a = b := by
  have hv := congrArg beVal h
  rw [beVal_beBytes, beVal_beBytes, Nat.mod_eq_of_lt ha, Nat.mod_eq_of_lt hb] at hv
  exact hv

theorem wrap_ok_counter (E : BlockCipher) (M : CMACFun) (ch : Channel) (i : Nat)
    (m : List Nat) (out : List Nat) (ch' : Channel)
    (h : Channel.wrap E M ch i m = .ok (out, ch')) :
    ch'.counter = ch.counter + 1 ∧ ch.counter < COUNTER_LIMIT := by
  simp only [Channel.wrap] at h
  by_cases hc : ch.counter ≥ COUNTER_LIMIT
  · rw [if_pos hc] at h
    exact absurd h (by simp)
  · rw [if_neg hc] at h
    by_cases hp : (pad80 m).length > 0xFFFF
    · rw [if_pos hp] at h
      exact absurd h (by simp)
    · rw [if_neg hp] at h
      have hpair := Except.ok.inj h
      rw [Prod.mk.injEq] at hpair
      refine ⟨?_, lt_of_not_ge hc⟩
      rw [← hpair.2]

theorem wrap_exhausted (E : BlockCipher) (M : CMACFun) (ch : Channel) (i : Nat)
    (m : List Nat) (hc : COUNTER_LIMIT ≤ ch.counter) :
    Channel.wrap E M ch i m = .error .counterExhausted := by
  simp only [Channel.wrap]
  rw [if_pos hc]

theorem wrapTrace_mem (E : BlockCipher) (M : CMACFun) :
    ∀ (msgs : List (Nat × List Nat)) (ch : Channel) (iv : List Nat),
      iv ∈ Channel.wrapTrace E M ch msgs →
        ∃ c, iv = beBytes BLOCK_SIZE c ∧ ch.counter ≤ c ∧ c < COUNTER_LIMIT := by
  intro msgs
  induction msgs with
  | nil =>
    intro ch iv h
    simp [Channel.wrapTrace] at h
  | cons p rest ih =>
    intro ch iv h
    rw [Channel.wrapTrace] at h
    cases hw : Channel.wrap E M ch p.1 p.2 with
    | error e =>
      rw [hw] at h
      simp at h
    | ok pr =>
      obtain ⟨out, ch'⟩ := pr
      rw [hw] at h
      rcases List.mem_cons.mp h with rfl | hmem
      · exact ⟨ch.counter, rfl, le_refl _,
          (wrap_ok_counter E M ch p.1 p.2 out ch' hw).2⟩
      · obtain ⟨c, hc1, hc2, hc3⟩ := ih ch' iv hmem
        have hcc := (wrap_ok_counter E M ch p.1 p.2 out ch' hw).1
        exact ⟨c, hc1, by omega, hc3⟩

theorem counter_bound : COUNTER_LIMIT ≤ 256 ^ BLOCK_SIZE := by
  rw [COUNTER_LIMIT, BLOCK_SIZE]
  norm_num

theorem wrapTrace_pairwise (E : BlockCipher) (M : CMACFun) :
    ∀ (msgs : List (Nat × List Nat)) (ch : Channel),
      (Channel.wrapTrace E M ch msgs).Pairwise (· ≠ ·) := by
  intro msgs
  induction msgs with
  | nil =>
    intro ch
    rw [Channel.wrapTrace]
    exact List.Pairwise.nil
  | cons p rest ih =>
    intro ch
    rw [Channel.wrapTrace]
    cases hw : Channel.wrap E M ch p.1 p.2 with
    | error e => exact List.Pairwise.nil
    | ok pr =>
      obtain ⟨out, ch'⟩ := pr
      refine List.Pairwise.cons ?_ (ih ch')
      intro iv hiv heq
      obtain ⟨c, hc1, hc2, hc3⟩ := wrapTrace_mem E M rest ch' iv hiv
      have hcc := wrap_ok_counter E M ch p.1 p.2 out ch' hw
      have hbc : ch.counter < 256 ^ BLOCK_SIZE := lt_of_lt_of_le hcc.2 counter_bound
      have hbcc : c < 256 ^ BLOCK_SIZE := lt_of_lt_of_le hc3 counter_bound
      have heq2 : beBytes BLOCK_SIZE ch.counter = beBytes BLOCK_SIZE c := by
        rw [← hc1]
        exact heq
      have := beBytes_inj hbc hbcc heq2
      omega

/-- C3: the message counter starts at 1 at channel establishment,
increases by exactly 1 on every successful exchange, an exhausted counter
(2^32) makes `wrap` fail with `CounterExhausted` instead of wrapping
around, and the IVs consumed along any run of exchanges are pairwise
distinct (no IV reuse during the channel lifetime). -/
theorem c3_counter_monotone_iv_fresh (E : BlockCipher) (M : CMACFun) :
    (∀ sid ek mk rk im, (Channel.init sid ek mk rk im).counter = 1) ∧
      (∀ ch i m out ch', Channel.wrap E M ch i m = .ok (out, ch') →
        ch'.counter = ch.counter + 1) ∧
      (∀ ch i m, COUNTER_LIMIT ≤ ch.counter →
        Channel.wrap E M ch i m = .error .counterExhausted) ∧
      ∀ ch msgs, (Channel.wrapTrace E M ch msgs).Pairwise (· ≠ ·) := by
  refine ⟨fun _ _ _ _ _ => rfl, ?_, ?_, ?_⟩
  · intro ch i m out ch' h
    exact (wrap_ok_counter E M ch i m out ch' h).1
  · intro ch i m hc
    exact wrap_exhausted E M ch i m hc
  · intro ch msgs
    exact wrapTrace_pairwise E M msgs ch

/-- Witness for C3: a freshly initialised channel has counter 1, and a
channel whose counter has reached 2^32 refuses to wrap with
`CounterExhausted`. -/
theorem c3_counter_monotone_iv_fresh_witness :
    (Channel.init 7 [] [] [] []).counter = 1 ∧
      Channel.wrap idCipher constCMAC ⟨7, [], [], [], COUNTER_LIMIT, []⟩ 1 [] =
        .error .counterExhausted :=
  ⟨(c3_counter_monotone_iv_fresh idCipher constCMAC).1 7 [] [] [] [],
    (c3_counter_monotone_iv_fresh idCipher constCMAC).2.2.1
      ⟨7, [], [], [], COUNTER_LIMIT, []⟩ 1 [] (le_refl _)⟩

theorem pad80_length_mod (m : List Nat) : (pad80 m).length % BLOCK_SIZE = 0 := by
  simp only [pad80, BLOCK_SIZE, List.length_append, List.length_cons, List.length_replicate]
  omega

theorem pad80_length_le (m : List Nat) (h : m.length + BLOCK_SIZE ≤ 65535) :
    (pad80 m).length ≤ 65535 := by
  simp only [pad80, BLOCK_SIZE, List.length_append, List.length_cons, List.length_replicate]
  simp only [BLOCK_SIZE] at h
  omega

theorem dropWhile_zero_replicate (k : Nat) (t : List Nat) :
    List.dropWhile (fun x => x == 0) (List.replicate k 0 ++ 128 :: t) = 128 :: t := by
  induction k with
  | zero =>
    rw [List.replicate, List.nil_append, List.dropWhile_cons]
    rw [if_neg (by decide)]
  | succ j ih =>
    rw [List.replicate, List.cons_append, List.dropWhile_cons]
    rw [if_pos (by decide)]
    exact ih

theorem unpad80_pad80 (m : List Nat) : unpad80 (pad80 m) = some m := by
  have hrev : (pad80 m).reverse =
      List.replicate ((BLOCK_SIZE - (m.length + 1) % BLOCK_SIZE) % BLOCK_SIZE) 0 ++
        128 :: m.reverse := by
    rw [pad80, List.reverse_append, List.reverse_cons, List.reverse_replicate,
      List.append_assoc, List.singleton_append]
  rw [unpad80, hrev, dropWhile_zero_replicate]
  show some m.reverse.reverse = some m
  rw [List.reverse_reverse]

theorem xorB_length (a b : List Nat) : (xorB a b).length = min a.length b.length :=
  List.length_zipWith _ a b

theorem xorB_xorB : ∀ (a b : List Nat), a.length = b.length → xorB a (xorB a b) = b := by
  intro a
  induction a with
  | nil =>
    intro b h
    rw [List.length_nil] at h
    rw [List.length_eq_zero.mp h.symm]
    rfl
  | cons x xs ih =>
    intro b h
    cases b with
    | nil => simp at h
    | cons y ys =>
      simp only [xorB, List.zipWith_cons_cons]
      rw [← Nat.xor_assoc, Nat.xor_self, Nat.zero_xor]
      have := ih ys (by simpa using h)
      simp only [xorB] at this
      rw [this]

theorem toBlocks_flatten_inv : ∀ l : List Nat, (toBlocks l).flatten = l := by
  intro l
  induction l using toBlocks.induct with
  | case1 l hl =>
    rw [toBlocks, if_pos hl]
    rw [List.isEmpty_iff.mp hl]
    rfl
  | case2 l hl ih =>
    rw [toBlocks, if_neg hl, List.flatten_cons, ih, List.take_append_drop]

theorem toBlocks_mem_length :
    ∀ l : List Nat, l.length % BLOCK_SIZE = 0 → ∀ b ∈ toBlocks l, b.length = BLOCK_SIZE := by
  intro l
  induction l using toBlocks.induct with
  | case1 l hl =>
    intro _ b hb
    rw [toBlocks, if_pos hl] at hb
    simp at hb
  | case2 l hl ih =>
    intro hmod b hb
    rw [toBlocks, if_neg hl] at hb
    have hne : l.length ≠ 0 := by
      intro h0
      exact hl (by rw [List.length_eq_zero.mp h0]; rfl)
    simp only [BLOCK_SIZE] at hmod
    have hlen : 16 ≤ l.length := by omega
    rcases List.mem_cons.mp hb with rfl | hmem
    · rw [List.length_take]
      simp only [BLOCK_SIZE]
      omega
    · refine ih ?_ b hmem
      rw [List.length_drop]
      simp only [BLOCK_SIZE]
      omega

theorem toBlocks_flatten :
    ∀ bs : List (List Nat), (∀ b ∈ bs, b.length = BLOCK_SIZE) → toBlocks bs.flatten = bs := by
  intro bs
  induction bs with
  | nil =>
    intro _
    rw [show (List.flatten ([] : List (List Nat))) = [] from rfl, toBlocks,
      if_pos (show ([] : List Nat).isEmpty = true from rfl)]
  | cons b rest ih =>
    intro h
    have hb : b.length = BLOCK_SIZE := h b (List.mem_cons_self b rest)
    have hbne : b ≠ [] := by
      intro h0
      rw [h0] at hb
      simp [BLOCK_SIZE] at hb
    rw [List.flatten_cons, toBlocks]
    rw [if_neg (by
      intro he
      rcases List.isEmpty_iff.mp he |> List.append_eq_nil.mp with ⟨h1, -⟩
      exact hbne h1)]
    have htake : (b ++ rest.flatten).take BLOCK_SIZE = b := by
      rw [← hb]
      exact List.take_left _ _
    have hdrop : (b ++ rest.flatten).drop BLOCK_SIZE = rest.flatten := by
      rw [← hb]
      exact List.drop_left _ _
    rw [htake, hdrop, ih fun x hx => h x (List.mem_cons_of_mem b hx)]

theorem cbcEnc_count (E : BlockCipher) (k : List Nat) :
    ∀ (bs : List (List Nat)) (iv : List Nat), (cbcEnc E k iv bs).length = bs.length := by
  intro bs
  induction bs with
  | nil => intro iv; rfl
  | cons b rest ih =>
    intro iv
    rw [cbcEnc, List.length_cons, List.length_cons, ih]

theorem cbcEnc_blocks_len (E : BlockCipher) (k : List Nat) :
    ∀ (bs : List (List Nat)) (iv : List Nat), iv.length = BLOCK_SIZE →
      (∀ b ∈ bs, b.length = BLOCK_SIZE) →
        ∀ c ∈ cbcEnc E k iv bs, c.length = BLOCK_SIZE := by
  intro bs
  induction bs with
  | nil =>
    intro iv _ _ c hc
    simp [cbcEnc] at hc
  | cons b rest ih =>
    intro iv hiv hbs c hc
    rw [cbcEnc] at hc
    have hhead : (E.enc k (xorB iv b)).length = BLOCK_SIZE := by
      rw [E.enc_len, xorB_length, hiv, hbs b (List.mem_cons_self b rest)]
      exact Nat.min_self _
    rcases List.mem_cons.mp hc with rfl | hmem
    · exact hhead
    · exact ih _ hhead (fun x hx => hbs x (List.mem_cons_of_mem b hx)) c hmem

theorem cbcDec_cbcEnc (E : BlockCipher) (k : List Nat) :
    ∀ (bs : List (List Nat)) (iv : List Nat), iv.length = BLOCK_SIZE →
      (∀ b ∈ bs, b.length = BLOCK_SIZE) →
        cbcDec E k iv (cbcEnc E k iv bs) = bs := by
  intro bs
  induction bs with
  | nil => intro iv _ _; rfl
  | cons b rest ih =>
    intro iv hiv hbs
    have hblen : b.length = BLOCK_SIZE := hbs b (List.mem_cons_self b rest)
    have hxlen : (xorB iv b).length = BLOCK_SIZE := by
      rw [xorB_length, hiv, hblen]
      exact Nat.min_self _
    have hclen : (E.enc k (xorB iv b)).length = BLOCK_SIZE := by
      rw [E.enc_len]
      exact hxlen
    rw [cbcEnc, cbcDec]
    rw [E.dec_enc k (xorB iv b) hxlen]
    rw [xorB_xorB iv b (by rw [hiv, hblen])]
    rw [ih _ hclen fun x hx => hbs x (List.mem_cons_of_mem b hx)]

theorem flatten_uniform_length :
    ∀ bs : List (List Nat), (∀ b ∈ bs, b.length = BLOCK_SIZE) →
      bs.flatten.length = BLOCK_SIZE * bs.length := by
  intro bs
  induction bs with
  | nil => intro _; rfl
  | cons b rest ih =>
    intro h
    rw [List.flatten_cons, List.length_append, h b (List.mem_cons_self b rest),
      ih fun x hx => h x (List.mem_cons_of_mem b hx), List.length_cons]
    ring

/-- C4: with shared session keys and chaining state (the same channel
state on both ends), unwrapping the bytes produced by wrapping any
command payload up to the maximum framable size returns exactly that
payload. -/
theorem c4_wrap_unwrap_roundtrip (E : BlockCipher) (M : CMACFun) (ch : Channel)
    (i : Nat) (m : List Nat) (hc : ch.counter < COUNTER_LIMIT)
    (hm : m.length + BLOCK_SIZE ≤ 65535) :
    ∃ out ch' ch'', Channel.wrap E M ch i m = .ok (out, ch') ∧
      Channel.unwrap E M ch out = .ok (m, ch'') := by
  have hple : (pad80 m).length ≤ 65535 := pad80_length_le m hm
  have hpmod := pad80_length_mod m
  have hivlen : ch.wrapIV.length = BLOCK_SIZE := by
    rw [Channel.wrapIV]
    exact beBytes_length BLOCK_SIZE ch.counter
  have hpadblocks := toBlocks_mem_length (pad80 m) hpmod
  have hencblocks :=
    cbcEnc_blocks_len E ch.encKey (toBlocks (pad80 m)) ch.wrapIV hivlen hpadblocks
  set ct := fromBlocks (cbcEnc E ch.encKey ch.wrapIV (toBlocks (pad80 m))) with hct
  have hctlen : ct.length = (pad80 m).length := by
    rw [hct, fromBlocks, flatten_uniform_length _ hencblocks, cbcEnc_count]
    conv_rhs => rw [← toBlocks_flatten_inv (pad80 m)]
    rw [flatten_uniform_length _ hpadblocks]
  have hctle : ct.length ≤ 65535 := by
    rw [hctlen]
    exact hple
  set full := M.f ch.macKey (ch.prevMac ++ ch.sessionId :: i :: ct) with hfull
  have htaglen : (full.take MAC_TAG_LEN).length = MAC_TAG_LEN := by
    rw [List.length_take, hfull, M.f_len]
    decide
  refine ⟨i :: ch.sessionId :: (beBytes 2 ct.length ++ ct ++ full.take MAC_TAG_LEN),
    { ch with counter := ch.counter + 1, prevMac := full },
    { ch with counter := ch.counter + 1, prevMac := full }, ?_, ?_⟩
  · simp only [Channel.wrap]
    rw [if_neg (not_le.mpr hc)]
    rw [if_neg (not_lt.mpr hple)]
  · have hout : (i :: ch.sessionId :: (beBytes 2 ct.length ++ ct ++ full.take MAC_TAG_LEN)) =
        i :: ch.sessionId :: (ct.length / 256 % 256) :: (ct.length % 256) ::
          (ct ++ full.take MAC_TAG_LEN) := by
      rw [show beBytes 2 ct.length = [ct.length / 256 % 256, ct.length % 256] from rfl]
      rfl
    rw [hout]
    simp only [Channel.unwrap]
    have hlen256 : ct.length / 256 % 256 * 256 + ct.length % 256 = ct.length := by omega
    rw [hlen256]
    have hrest : (ct ++ full.take MAC_TAG_LEN).length = ct.length + MAC_TAG_LEN := by
      rw [List.length_append, htaglen]
    rw [if_neg (not_not_intro hrest)]
    have htake2 : (ct ++ full.take MAC_TAG_LEN).take ct.length = ct := List.take_left _ _
    have hdrop2 : (ct ++ full.take MAC_TAG_LEN).drop ct.length = full.take MAC_TAG_LEN :=
      List.drop_left _ _
    rw [htake2, hdrop2, ← hfull]
    rw [if_neg (not_not_intro rfl)]
    have hblocks : toBlocks ct = cbcEnc E ch.encKey ch.wrapIV (toBlocks (pad80 m)) := by
      rw [hct, fromBlocks]
      exact toBlocks_flatten _ hencblocks
    rw [hblocks, cbcDec_cbcEnc E ch.encKey (toBlocks (pad80 m)) ch.wrapIV hivlen hpadblocks]
    rw [show fromBlocks (toBlocks (pad80 m)) = pad80 m from toBlocks_flatten_inv (pad80 m)]
    rw [unpad80_pad80]

/-- Witness for C4: a concrete 3-byte payload round-trips through
wrap/unwrap on a freshly initialised channel. -/
theorem c4_wrap_unwrap_roundtrip_witness :
    ∃ out ch' ch'',
      Channel.wrap idCipher constCMAC
          ⟨1, List.replicate 16 0, List.replicate 16 0, List.replicate 16 0, 1,
            List.replicate 16 0⟩ 5 [1, 2, 3] = .ok (out, ch') ∧
        Channel.unwrap idCipher constCMAC
            ⟨1, List.replicate 16 0, List.replicate 16 0, List.replicate 16 0, 1,
              List.replicate 16 0⟩ out = .ok ([1, 2, 3], ch'') :=
  c4_wrap_unwrap_roundtrip idCipher constCMAC
    ⟨1, List.replicate 16 0, List.replicate 16 0, List.replicate 16 0, 1,
      List.replicate 16 0⟩ 5 [1, 2, 3] (by decide) (by decide)

end Yubihsm
